import Mathlib

/-!
Verification development for the sky-localization scatter pipeline
(`scripts/scatter.py`).

The per-event numeric core of the script is embedded shallowly:

* python strings are `List Char`, with executable models of the string
  operations the script uses (`split`, `join`, `strip`, `replace`, `float`);
* numpy scalar values are `ℚ`; the only place the floating-point nature of
  the data matters to the embedded code is the sign of the quotient
  `ra_int[0,0] / ra_int[0,-1]` in the roll loop, which is modelled exactly
  (including the IEEE `inf`/`nan` behaviour of a zero denominator) by
  `ratioPos`;
* numpy grids are `List (List ℚ)` in row-major order;
* external collaborators (the basemap projection `m`, the antenna-pattern
  model `net_antenna_pattern_point`, matplotlib colormaps) are parameters
  of the embedding, bundled in `Externals`;
* the module-level event loop is `processEvents` / `runLabels`; a python
  exception escaping the loop body is an `Except.error`, which aborts the
  whole fold exactly as an uncaught exception aborts the script.
-/

/-! ## Python string primitives -/

/-- Model of python `s.split(sep)` for a one-character separator, as used by
`filename.split("/")` and `l.split(":")` in the script. -/
def pySplit (sep : Char) : List Char → List (List Char)
  | [] => [[]]
  | c :: rest =>
    let r := pySplit sep rest
    if c = sep then [] :: r
    else
      match r with
      | [] => [[c]]
      | h :: t => (c :: h) :: t

/-- Model of python `sep.join(parts)` for a one-character separator. -/
def pyJoin (sep : Char) : List (List Char) → List Char
  | [] => []
  | [p] => p
  | p :: rest => p ++ sep :: pyJoin sep rest

/-- Model of python `s.strip()`: drop leading and trailing whitespace. -/
def pyStrip (s : List Char) : List Char :=
  ((s.dropWhile Char.isWhitespace).reverse.dropWhile Char.isWhitespace).reverse

/-- Fuelled worker for `pyReplace`; the fuel is the length of the subject
string, which bounds the number of consumed characters. -/
def pyReplaceAux (pat rep : List Char) : ℕ → List Char → List Char
  | _, [] => []
  | 0, s => s
  | fuel + 1, c :: rest =>
    if h : pat ≠ [] ∧ (c :: rest).take pat.length = pat then
      rep ++ pyReplaceAux pat rep (fuel + 1 - pat.length) ((c :: rest).drop pat.length)
    else
      c :: pyReplaceAux pat rep fuel rest
termination_by fuel _ => fuel
decreasing_by
  · have hp : 0 < pat.length := List.length_pos.mpr h.1
    omega
  · omega

/-- Model of python `s.replace(pat, rep)` (all non-overlapping occurrences,
scanning left to right), as used by `filename.replace("fits.gz", "intrp.npz")`. -/
def pyReplace (s pat rep : List Char) : List Char :=
  pyReplaceAux pat rep s.length s

/-- Decimal digit value of a character, if any. -/
def digitVal? (c : Char) : Option ℕ :=
  if '0' ≤ c ∧ c ≤ '9' then some (c.toNat - '0'.toNat) else none

/-- Accumulating decimal reader for `parseDigits?`. -/
def parseDigitsAux (acc : ℕ) : List Char → Option ℕ
  | [] => some acc
  | c :: rest =>
    match digitVal? c with
    | none => none
    | some d => parseDigitsAux (10 * acc + d) rest

/-- Read a non-empty all-digit string as a natural number. -/
def parseDigits? : List Char → Option ℕ
  | [] => none
  | l => parseDigitsAux 0 l

/-- Unsigned decimal literal: digits with an optional single point. -/
def parseUnsignedQ? (s : List Char) : Option ℚ :=
  match pySplit '.' s with
  | [intPart] => (parseDigits? intPart).map (fun n => (n : ℚ))
  | [intPart, fracPart] =>
    match parseDigits? intPart, parseDigits? fracPart with
    | some n, some f => some ((n : ℚ) + (f : ℚ) / (10 : ℚ) ^ fracPart.length)
    | _, _ => none
  | _ => none

/-- Model of python `float(s)` on the plain decimal literals that appear in
the per-event SNR files; any other string fails (python `ValueError`). -/
def pyFloat? (s : List Char) : Option ℚ :=
  match pyStrip s with
  | '-' :: rest => (parseUnsignedQ? rest).map Neg.neg
  | '+' :: rest => parseUnsignedQ? rest
  | l => parseUnsignedQ? l

/-- Model of numpy `np.mod(a, b)` on scalars: `a - b * ⌊a / b⌋`. -/
def qmod (a b : ℚ) : ℚ := a - b * ⌊a / b⌋

/-! ## GridRotator: RA wraparound and the column-roll loop

Embeds `scripts/scatter.py` lines 268-279: the sidereal shift, the
radians-to-degrees conversion, the two `np.where` wraparounds, and the
`while ra_int[0,0]/ra_int[0,-1] > 0` roll loop. -/

/-- Rectangular numpy array of rationals, row-major. -/
abbrev Grid : Type := List (List ℚ)

/-- Elementwise map over a grid (a numpy ufunc application). -/
def gridMap (f : ℚ → ℚ) (g : Grid) : Grid := g.map (fun row => row.map f)

/-- Elementwise combination of two grids of the same shape (numpy
broadcasting of a binary function over equal shapes). -/
def gridZipWith (f : ℚ → ℚ → ℚ) (a b : Grid) : Grid :=
  List.zipWith (fun ra rb => List.zipWith f ra rb) a b

/-- Row-major flattening of a grid, as numpy `argmax` sees it. -/
def gridJoin (g : Grid) : List ℚ := g.flatten

/-- The two-sided RA wraparound of lines 272-273:
`ra = np.where(ra < -180, ra + 360, ra)` followed by
`ra = np.where(ra > 180, ra - 360, ra)`, read at one array element. -/
def wrapRA (x : ℚ) : ℚ :=
  let x1 := if x < -180 then x + 360 else x
  if x1 > 180 then x1 - 360 else x1

/-- Sign test `num / den > 0` as IEEE-754 division evaluates it on the
floats of the script: for `den = 0` the quotient is `±inf` (sign of `num`)
or `nan` (for `0/0`), and `nan > 0` is false.  Hence the test is `num < 0`
when `den < 0`, and `num > 0` otherwise. -/
def ratioPos (num den : ℚ) : Bool :=
  if den < 0 then decide (num < 0) else decide (num > 0)

/-- One `np.roll(·, -1, axis=1)` step: every row rotates left by one. -/
def rollGrid (g : Grid) : Grid := g.map (fun row => row.rotate 1)

/-- First row of a grid (`ra_int[0]`). -/
def firstRow (g : Grid) : List ℚ := g.headD []

/-- The array element `g[0, 0]`. -/
def raHead (g : Grid) : ℚ := (firstRow g).headD 0

/-- The array element `g[0, -1]`. -/
def raLast (g : Grid) : ℚ := (firstRow g).getLastD 0

/-- Loop condition of line 276: `ra_int[0,0] / ra_int[0,-1] > 0`. -/
def loopCond (g : Grid) : Bool := ratioPos (raHead g) (raLast g)

/-- The roll loop of lines 276-278, with explicit fuel.  The script's loop
is unbounded; `none` means the fuel was exhausted with the loop condition
still true, i.e. the script would still be rolling.  On exit the result
carries the rolled `ra` grid, the identically rolled `prob` grid, and the
number of iterations performed. -/
def rollLoop : ℕ → Grid → Grid → Option (Grid × Grid × ℕ)
  | fuel, ra, prob =>
    if loopCond ra then
      match fuel with
      | 0 => none
      | fuel' + 1 =>
        match rollLoop fuel' (rollGrid ra) (rollGrid prob) with
        | none => none
        | some (a, b, k) => some (a, b, k + 1)
    else some (ra, prob, 0)

/-- Line 268: `ra_int = (-gmst + ra_int) * np.pi / 12`.  The float constant
`np.pi` is carried as a parameter of the embedding. -/
def raShifted (pi gmst : ℚ) (ra : Grid) : Grid :=
  gridMap (fun x => (-gmst + x) * pi / 12) ra

/-- Line 271: `ra_int = ra_int * 180 / np.pi`. -/
def raDegrees (pi : ℚ) (ra : Grid) : Grid :=
  gridMap (fun x => x * 180 / pi) ra

/-- Lines 272-273 applied to the whole grid. -/
def raWrapped (g : Grid) : Grid := gridMap wrapRA g

/-! ## CredibleRegionAnalyzer

Embeds lines 233-235: `np.searchsorted(sky_data["cumul"], mass)` with the
default `side='left'`, and the area `pixel_rank * pix_size` of line 238/304. -/

/-- Model of `np.searchsorted(a, v)` (`side='left'`) on a non-decreasing
sequence: the leftmost insertion point, i.e. the smallest index whose
element is `≥ v`, or `a.length` when no element reaches `v`. -/
def searchsorted (a : List ℚ) (v : ℚ) : ℕ :=
  match a with
  | [] => 0
  | x :: xs => if x < v then searchsorted xs v + 1 else 0

/-- Sky area of a credible region: pixel rank times per-pixel area
(`prb68 * pix_size`). -/
def credibleArea (cumul : List ℚ) (mass : ℚ) (pixSize : ℚ) : ℚ :=
  (searchsorted cumul mass : ℚ) * pixSize

/-- Total sky area of the pixelization: pixel count times per-pixel area. -/
def totalSkyArea (cumul : List ℚ) (pixSize : ℚ) : ℚ :=
  (cumul.length : ℚ) * pixSize

/-! ## InterpolationCache

Embeds lines 257-264: the cache path is the map filename with `fits.gz`
replaced by `intrp.npz`; a hit deserializes the stored triple, a miss runs
the interpolation kernel and persists the result.  `np.savez`/`np.load` of
float arrays is lossless, so persistence is modelled as exact storage. -/

/-- The `(ra_int, dec_int, prob_int)` triple held by one cache artifact. -/
structure Triple where
  ra : Grid
  dec : Grid
  prob : Grid

/-- Line 257: `cache_fname = filename.replace("fits.gz", "intrp.npz")`. -/
def cacheFname (filename : List Char) : List Char :=
  pyReplace filename "fits.gz".data "intrp.npz".data

/-- Durable storage holding serialized cache artifacts, keyed by path. -/
abbrev NpzStore : Type := List (List Char × Triple)

/-- Lines 258-264: on hit load the stored triple, on miss run `computeFn`
(the external `interpolate_healpix_map` kernel) and persist its result.
Returns the triple, the updated store, and whether the kernel ran. -/
def getOrCompute (store : NpzStore) (filename : List Char)
    (computeFn : Unit → Triple) : Triple × NpzStore × Bool :=
  let c := cacheFname filename
  match store.lookup c with
  | some t => (t, store, false)
  | none =>
    let t := computeFn ()
    (t, (c, t) :: store, true)

/-! ## Per-event SNR file

Embeds lines 242-248: the SNR path is built from the map filename, the file
is parsed as `key: value` lines, every value is converted with `float`, and
`snrs["Network"]` is read.  A missing file, an unsplittable line, an
unparseable value, or a missing `"Network"` key each raise in python and
abort the script; they are the error outcomes here. -/

/-- Line 242: `snr = "/".join(filename.split("/")[:-2]) + "/snr.txt"`. -/
def snrPath (filename : List Char) : List Char :=
  pyJoin '/' (((pySplit '/' filename).dropLast).dropLast) ++ "/snr.txt".data

/-- Errors with which one event's processing can abort.  Each corresponds
to an uncaught python exception in the loop body. -/
inductive EventErr : Type
  | missingSNRFile
  | badSNRLine
  | badSNRValue
  | missingNetwork
  | loopDiverged
  | indexError
  | unboundLinecolor
deriving DecidableEq

/-- Files visible to `open(...)`, keyed by path; a file is its lines. -/
abbrev TextFS : Type := List (List Char × List (List Char))

/-- Line 244: one line split at `":"` and stripped; any line that does not
split into exactly a key and a value makes the `dict(...)` call raise. -/
def parseSNRLine (l : List Char) : Except EventErr (List Char × List Char) :=
  match pySplit ':' l with
  | [k, v] => .ok (pyStrip k, pyStrip v)
  | _ => .error .badSNRLine

/-- Lines 243-246: read and parse the SNR file and convert every value with
`float`. -/
def readSNR (fs : TextFS) (path : List Char) :
    Except EventErr (List (List Char × ℚ)) :=
  match fs.lookup path with
  | none => .error .missingSNRFile
  | some ls => do
    let pairs ← ls.mapM parseSNRLine
    pairs.mapM (fun kv =>
      match pyFloat? kv.2 with
      | some q => .ok (kv.1, q)
      | none => .error .badSNRValue)

/-! ## Peak location -/

/-- Model of `np.argmax` on the flattened array, paired with the maximum
value: index of the first occurrence of the maximum (`np.unravel_index`
followed by 2-d indexing reads exactly this flat position back). -/
def argmaxPair : List ℚ → ℕ × ℚ
  | [] => (0, 0)
  | [x] => (0, x)
  | x :: y :: rest =>
    let p := argmaxPair (y :: rest)
    if p.2 > x then (p.1 + 1, p.2) else (0, x)

/-! ## EventProcessor -/

/-- External collaborators of the per-event pipeline, treated as pure
functions: the float constant `np.pi`, the basemap projection `m` (a pair
of coordinatewise maps), and the single-point antenna-pattern evaluation
`net_antenna_pattern_point(gmst, network, ra, dec, norm=True)[3]` with the
network fixed for the run. -/
structure Externals where
  pi : ℚ
  mx : ℚ → ℚ → ℚ
  my : ℚ → ℚ → ℚ
  antennaPt : ℚ → ℚ → ℚ → ℚ

/-- A matplotlib color value. -/
abbrev Color : Type := List Char

/-- One event as the loop body sees it: the globbed filename, the injection
record's `geocent_end_time`, the `create_table` outputs (`sky_data["cumul"]`,
`sky_data["prob"]`, the per-pixel area), and the value the interpolation
kernel would produce for this map (the kernel itself is external). -/
structure EventInput where
  filename : List Char
  geocentEndTime : ℚ
  cumul : List ℚ
  probs : List ℚ
  pixSize : ℚ
  interp : Triple

/-- Lines 226-227: `gmst = inj[enum].geocent_end_time` then
`gmst = np.mod(gmst/3600., 24.)`. -/
def gmstOf (ev : EventInput) : ℚ := qmod (ev.geocentEndTime / 3600) 24

/-- The rotated-and-wrapped RA grid entering the roll loop (lines 268-273). -/
def raEntering (ext : Externals) (ev : EventInput) : Grid :=
  raWrapped (raDegrees ext.pi (raShifted ext.pi (gmstOf ev) ev.interp.ra))

/-- What one event contributes: the non-convergence flag of lines 238-241
(print-only — the `continue` is commented out), the aggregate record
`[prb68 * pix_size, snrs["Network"], antenna_pattern]` of line 304, and the
line color used for its contour. -/
structure EventResult where
  nonConverged : Bool
  record : ℚ × ℚ × ℚ
  linecolor : Color

/-- The per-label color configuration: the parsed colorspec's quantity name
(`None` for the documented bare-color form, by `parse_colorspecs` lines
76-85) and the `Plottable.__call__` value-to-color map. -/
structure LabelCfg where
  quant : Option (List Char)
  call : ℚ → Color

/-- Lines 250-255: the line color is assigned only in the `error_region`
and `snr` branches; any other quantity leaves the module-level variable
`linecolor` untouched (possibly still unbound). -/
def linecolorAfter (cfg : LabelCfg) (prb68Area netSNR : ℚ)
    (st : Option Color) : Option Color :=
  if cfg.quant = some "error_region".data then some (cfg.call prb68Area)
  else if cfg.quant = some "snr".data then some (cfg.call netSNR)
  else st

/-- The triple in use after the cache step for one event: the cache hit's
deserialized triple, or the freshly interpolated one. -/
def cachedTriple (store : NpzStore) (ev : EventInput) : Triple :=
  (getOrCompute store ev.filename (fun _ => ev.interp)).1

/-- The cache store after the cache step for one event. -/
def cachedStore (store : NpzStore) (ev : EventInput) : NpzStore :=
  (getOrCompute store ev.filename (fun _ => ev.interp)).2.1

/-- Line 279: `ra_int *= -1` after the roll loop. -/
def raFinal (raR : Grid) : Grid := gridMap Neg.neg raR

/-- Line 281, first component: `ra_int, dec_int = m(ra_int, dec_int)`. -/
def raProjected (ext : Externals) (raR dec : Grid) : Grid :=
  gridZipWith ext.mx (raFinal raR) dec

/-- Line 281, second component of the projection. -/
def decProjected (ext : Externals) (raR dec : Grid) : Grid :=
  gridZipWith ext.my (raFinal raR) dec

/-- Line 286: `np.unravel_index(np.argmax(prob_int), prob_int.shape)`, kept
as the flat row-major position. -/
def peakIdx (probR : Grid) : ℕ := (argmaxPair (gridJoin probR)).1

/-- Line 289: `ra_max = ra_int[max_indices]`. -/
def raMaxOf (ext : Externals) (raR dec probR : Grid) : ℚ :=
  (gridJoin (raProjected ext raR dec)).getD (peakIdx probR) 0

/-- Line 290: `dec_max = dec_int[max_indices]`. -/
def decMaxOf (ext : Externals) (raR dec probR : Grid) : ℚ :=
  (gridJoin (decProjected ext raR dec)).getD (peakIdx probR) 0

/-- The body of the event loop, lines 220-304, in the script's statement
order.  State threaded between iterations: the module-level `linecolor`
binding and the cache store.  An `Except.error` is an uncaught python
exception: it aborts the whole batch. -/
def processEvent (ext : Externals) (cfg : LabelCfg) (fs : TextFS)
    (fuel : ℕ) (st : Option Color) (store : NpzStore) (ev : EventInput) :
    Except EventErr (EventResult × Option Color × NpzStore) :=
  let prb68 := searchsorted ev.cumul (68 / 100)
  let _prb95 := searchsorted ev.cumul (95 / 100)
  let _prb99 := searchsorted ev.cumul (99 / 100)
  let nonConv : Bool := decide ((prb68 : ℚ) * ev.pixSize > 64)
  match readSNR fs (snrPath ev.filename) with
  | .error e => .error e
  | .ok snrs =>
    match snrs.lookup "Network".data with
    | none => .error .missingNetwork
    | some netSNR =>
      let st' := linecolorAfter cfg ((prb68 : ℚ) * ev.pixSize) netSNR st
      let triple := cachedTriple store ev
      let store' := cachedStore store ev
      let raW := raWrapped (raDegrees ext.pi (raShifted ext.pi (gmstOf ev) triple.ra))
      match rollLoop fuel raW triple.prob with
      | none => .error .loopDiverged
      | some (raR, probR, _) =>
        if prb68 < ev.probs.length then
          match st' with
          | none => .error .unboundLinecolor
          | some lc =>
            let antenna := ext.antennaPt (gmstOf ev)
              (raMaxOf ext raR triple.dec probR) (decMaxOf ext raR triple.dec probR)
            .ok (⟨nonConv, ((prb68 : ℚ) * ev.pixSize, netSNR, antenna), lc⟩, st', store')
        else .error .indexError

/-- The inner `for filename in files` loop for one label: sequential, with
the first uncaught exception aborting everything that follows. -/
def processEvents (ext : Externals) (cfg : LabelCfg) (fs : TextFS)
    (fuel : ℕ) (st : Option Color) (store : NpzStore) :
    List EventInput → Except EventErr (List EventResult × Option Color × NpzStore)
  | [] => .ok ([], st, store)
  | ev :: rest =>
    match processEvent ext cfg fs fuel st store ev with
    | .error e => .error e
    | .ok (res, st', store') =>
      match processEvents ext cfg fs fuel st' store' rest with
      | .error e => .error e
      | .ok (l, st'', store'') => .ok (res :: l, st'', store'')

/-- The outer `for label, globpat in pspecs` loop: labels processed in
sequence, the module-level `linecolor` and the cache store carried across
labels, one record list accumulated per label (`config_information`). -/
def runLabels (ext : Externals) (fs : TextFS) (fuel : ℕ)
    (st : Option Color) (store : NpzStore) :
    List (LabelCfg × List EventInput) →
    Except EventErr (List (List EventResult))
  | [] => .ok []
  | (cfg, evs) :: rest =>
    match processEvents ext cfg fs fuel st store evs with
    | .error e => .error e
    | .ok (l, st', store') =>
      match runLabels ext fs fuel st' store' rest with
      | .error e => .error e
      | .ok ls => .ok (l :: ls)

/-! ## Lemmas about `searchsorted` -/

/-- The insertion point never exceeds the sequence length. -/
theorem searchsorted_le_length (a : List ℚ) (v : ℚ) :
    searchsorted a v ≤ a.length := by
  induction a with
  | nil => simp [searchsorted]
  | cons x xs ih =>
    simp only [searchsorted, List.length_cons]
    split_ifs <;> omega

/-- Every element strictly before the insertion point is below the target. -/
theorem searchsorted_lt_of_lt (a : List ℚ) (v : ℚ) :
    ∀ i < searchsorted a v, a.getD i 0 < v := by
  induction a with
  | nil => simp [searchsorted]
  | cons x xs ih =>
    intro i hi
    simp only [searchsorted] at hi
    split_ifs at hi with hx
    · cases i with
      | zero => simpa using hx
      | succ j =>
        have := ih j (by omega)
        simpa using this
    · omega

/-- The element at the insertion point (when it exists) reaches the target. -/
theorem searchsorted_ge (a : List ℚ) (v : ℚ)
    (h : searchsorted a v < a.length) :
    v ≤ a.getD (searchsorted a v) 0 := by
  induction a with
  | nil => simp [searchsorted] at h
  | cons x xs ih =>
    by_cases hx : x < v
    · have h' : searchsorted xs v < xs.length := by
        simp only [searchsorted, if_pos hx, List.length_cons] at h
        omega
      have := ih h'
      simp only [searchsorted, if_pos hx]
      simpa using this
    · simp only [searchsorted, if_neg hx]
      simpa using not_lt.mp hx

/-- The insertion point is monotone in the target value. -/
theorem searchsorted_mono (a : List ℚ) {v w : ℚ} (hvw : v ≤ w) :
    searchsorted a v ≤ searchsorted a w := by
  induction a with
  | nil => simp [searchsorted]
  | cons x xs ih =>
    simp only [searchsorted]
    split_ifs with h1 h2 h3
    · omega
    · exact absurd (lt_of_lt_of_le h1 hvw) h2
    · omega
    · omega

/-- C5: for every non-decreasing cumulative sequence and target mass, the
credible-region search returns the smallest pixel rank whose cumulative
probability reaches the target mass (leftmost insertion point), and the
reported credible area is that rank times the per-pixel area. -/
theorem C5_credible_region_search (cumul : List ℚ) (mass pixSize : ℚ)
    (hmono : cumul.Chain' (· ≤ ·)) :
    (∀ i < searchsorted cumul mass, cumul.getD i 0 < mass) ∧
    (searchsorted cumul mass < cumul.length →
      mass ≤ cumul.getD (searchsorted cumul mass) 0) ∧
    searchsorted cumul mass ≤ cumul.length ∧
    credibleArea cumul mass pixSize = (searchsorted cumul mass : ℚ) * pixSize :=
  ⟨searchsorted_lt_of_lt cumul mass, searchsorted_ge cumul mass,
    searchsorted_le_length cumul mass, rfl⟩

/-- Witness for C5 at the concrete non-decreasing sequence
`[1/2, 7/10, 1]` with target mass `0.68` and pixel area `2`. -/
theorem C5_credible_region_search_witness :
    List.Chain' (· ≤ ·) [(1 : ℚ)/2, 7/10, 1] ∧
    ((∀ i < searchsorted [(1 : ℚ)/2, 7/10, 1] (68/100),
        List.getD [(1 : ℚ)/2, 7/10, 1] i 0 < 68/100) ∧
      (searchsorted [(1 : ℚ)/2, 7/10, 1] (68/100) < 3 →
        (68 : ℚ)/100 ≤ List.getD [(1 : ℚ)/2, 7/10, 1]
          (searchsorted [(1 : ℚ)/2, 7/10, 1] (68/100)) 0) ∧
      searchsorted [(1 : ℚ)/2, 7/10, 1] (68/100) ≤ 3 ∧
      credibleArea [(1 : ℚ)/2, 7/10, 1] (68/100) 2 =
        (searchsorted [(1 : ℚ)/2, 7/10, 1] (68/100) : ℚ) * 2) := by
  constructor
  · norm_num [List.chain'_cons]
  · exact C5_credible_region_search [(1 : ℚ)/2, 7/10, 1] (68/100) 2
      (by norm_num [List.chain'_cons])

/-- C7: for every map with a non-decreasing cumulative sequence (and a
nonnegative per-pixel area), the credible areas are monotone in the target
mass, `area(0.68) ≤ area(0.95) ≤ area(0.99)`, and all three lie within
`[0, total_sky_area]`. -/
theorem C7_credible_area_monotone (cumul : List ℚ) (pixSize : ℚ)
    (hmono : cumul.Chain' (· ≤ ·)) (hpix : 0 ≤ pixSize) :
    credibleArea cumul (68/100) pixSize ≤ credibleArea cumul (95/100) pixSize ∧
    credibleArea cumul (95/100) pixSize ≤ credibleArea cumul (99/100) pixSize ∧
    0 ≤ credibleArea cumul (68/100) pixSize ∧
    credibleArea cumul (99/100) pixSize ≤ totalSkyArea cumul pixSize := by
  have m1 : searchsorted cumul (68/100) ≤ searchsorted cumul (95/100) :=
    searchsorted_mono cumul (by norm_num)
  have m2 : searchsorted cumul (95/100) ≤ searchsorted cumul (99/100) :=
    searchsorted_mono cumul (by norm_num)
  have m3 : searchsorted cumul (99/100) ≤ cumul.length :=
    searchsorted_le_length cumul (99/100)
  refine ⟨?_, ?_, ?_, ?_⟩
  · exact mul_le_mul_of_nonneg_right (by exact_mod_cast Nat.cast_le.mpr m1) hpix
  · exact mul_le_mul_of_nonneg_right (by exact_mod_cast Nat.cast_le.mpr m2) hpix
  · exact mul_nonneg (by positivity) hpix
  · exact mul_le_mul_of_nonneg_right (by exact_mod_cast Nat.cast_le.mpr m3) hpix

/-- Witness for C7 at the concrete cumulative sequence `[1/4, 1/2, 3/4, 1]`
with per-pixel area `3`. -/
theorem C7_credible_area_monotone_witness :
    List.Chain' (· ≤ ·) [(1 : ℚ)/4, 1/2, 3/4, 1] ∧ (0 : ℚ) ≤ 3 ∧
    (credibleArea [(1 : ℚ)/4, 1/2, 3/4, 1] (68/100) 3 ≤
        credibleArea [(1 : ℚ)/4, 1/2, 3/4, 1] (95/100) 3 ∧
      credibleArea [(1 : ℚ)/4, 1/2, 3/4, 1] (95/100) 3 ≤
        credibleArea [(1 : ℚ)/4, 1/2, 3/4, 1] (99/100) 3 ∧
      0 ≤ credibleArea [(1 : ℚ)/4, 1/2, 3/4, 1] (68/100) 3 ∧
      credibleArea [(1 : ℚ)/4, 1/2, 3/4, 1] (99/100) 3 ≤
        totalSkyArea [(1 : ℚ)/4, 1/2, 3/4, 1] 3) :=
  ⟨by norm_num [List.chain'_cons], by norm_num,
    C7_credible_area_monotone [(1 : ℚ)/4, 1/2, 3/4, 1] 3
      (by norm_num [List.chain'_cons]) (by norm_num)⟩

/-- C8 counterexample: the RA value `-180°` is within one full turn of the
target range, yet the two-sided wraparound leaves it at `-180°`, which is
not in `(-180°, 180°]`; so the wraparound does not normalize every such
value into the half-open range the claim states. -/
theorem C8_counterexample :
    wrapRA (-180) = -180 ∧ ¬ (-180 < wrapRA (-180) ∧ wrapRA (-180) ≤ 180) := by
  norm_num [wrapRA]

/-- C8 (amended): after conversion to degrees, the wraparound maps every
value below `-180°` up by `+360°` and every value above `+180°` down by
`-360°`; every value within one full turn of the target range (i.e. in
`[-540°, 540°]`) lands in the closed range `[-180°, 180°]` (the endpoint
`-180°` is left in place, so the range is closed, not `(-180°, 180°]`). -/
theorem C8_wraparound (x : ℚ) (hlo : -540 ≤ x) (hhi : x ≤ 540) :
    (x < -180 → wrapRA x = x + 360) ∧
    (180 < x → wrapRA x = x - 360) ∧
    -180 ≤ wrapRA x ∧ wrapRA x ≤ 180 := by
  simp only [wrapRA]
  split_ifs with h1 h2 h3 <;>
    refine ⟨fun hx => ?_, fun hx => ?_, ?_, ?_⟩ <;> linarith

/-- Witness for C8 at the concrete value `-200°`, which the wraparound
maps to `160°`. -/
theorem C8_wraparound_witness :
    (-540 ≤ (-200 : ℚ)) ∧ ((-200 : ℚ) ≤ 540) ∧
    (((-200 : ℚ) < -180 → wrapRA (-200) = -200 + 360) ∧
      ((180 : ℚ) < -200 → wrapRA (-200) = -200 - 360) ∧
      -180 ≤ wrapRA (-200) ∧ wrapRA (-200) ≤ 180) :=
  ⟨by norm_num, by norm_num,
    C8_wraparound (-200) (by norm_num) (by norm_num)⟩

/-- C6: on a cache miss the interpolation kernel runs and its result is
persisted before being returned; a second lookup with the same source path
is a hit that returns the identical `(ra, dec, prob)` triple without
invoking the compute function (whatever function the second call carries). -/
theorem C6_cache_round_trip (store : NpzStore) (f : List Char)
    (g1 g2 : Unit → Triple)
    (hmiss : store.lookup (cacheFname f) = none) :
    (getOrCompute store f g1).2.2 = true ∧
    (getOrCompute store f g1).1 = g1 () ∧
    (getOrCompute (getOrCompute store f g1).2.1 f g2).2.2 = false ∧
    (getOrCompute (getOrCompute store f g1).2.1 f g2).1 =
      (getOrCompute store f g1).1 ∧
    (getOrCompute (getOrCompute store f g1).2.1 f g2).2.1 =
      (getOrCompute store f g1).2.1 := by
  simp [getOrCompute, hmiss, List.lookup]

/-- Witness for C6: an empty store, the source path
`skymaps/7/post/7.fits.gz`, and two distinct compute functions; the second
call returns the first call's triple even though its own compute function
would produce a different one. -/
theorem C6_cache_round_trip_witness :
    (getOrCompute [] "skymaps/7/post/7.fits.gz".data
        (fun _ => ⟨[[1]], [[2]], [[3]]⟩)).2.2 = true ∧
    (getOrCompute [] "skymaps/7/post/7.fits.gz".data
        (fun _ => ⟨[[1]], [[2]], [[3]]⟩)).1 = ⟨[[1]], [[2]], [[3]]⟩ ∧
    (getOrCompute (getOrCompute [] "skymaps/7/post/7.fits.gz".data
        (fun _ => ⟨[[1]], [[2]], [[3]]⟩)).2.1 "skymaps/7/post/7.fits.gz".data
        (fun _ => ⟨[[4]], [[5]], [[6]]⟩)).2.2 = false ∧
    (getOrCompute (getOrCompute [] "skymaps/7/post/7.fits.gz".data
        (fun _ => ⟨[[1]], [[2]], [[3]]⟩)).2.1 "skymaps/7/post/7.fits.gz".data
        (fun _ => ⟨[[4]], [[5]], [[6]]⟩)).1 =
      (getOrCompute [] "skymaps/7/post/7.fits.gz".data
        (fun _ => ⟨[[1]], [[2]], [[3]]⟩)).1 ∧
    (getOrCompute (getOrCompute [] "skymaps/7/post/7.fits.gz".data
        (fun _ => ⟨[[1]], [[2]], [[3]]⟩)).2.1 "skymaps/7/post/7.fits.gz".data
        (fun _ => ⟨[[4]], [[5]], [[6]]⟩)).2.1 =
      (getOrCompute [] "skymaps/7/post/7.fits.gz".data
        (fun _ => ⟨[[1]], [[2]], [[3]]⟩)).2.1 :=
  C6_cache_round_trip [] "skymaps/7/post/7.fits.gz".data
    (fun _ => ⟨[[1]], [[2]], [[3]]⟩) (fun _ => ⟨[[4]], [[5]], [[6]]⟩) rfl

/-! ## Lemmas about the roll loop -/

/-- Reading the head with a default is reading index `0` with a default. -/
theorem headD_eq_getD (l : List ℚ) : l.headD 0 = l.getD 0 0 := by
  cases l <;> rfl

/-- Reading the last element of a non-empty list with a default is reading
index `length - 1`, with any defaults. -/
theorem getLastD_eq_getD :
    ∀ (l : List ℚ), l ≠ [] → ∀ (d e : ℚ), l.getLastD d = l.getD (l.length - 1) e
  | [a], _, d, e => rfl
  | a :: b :: t, _, d, e => by
    rw [List.getLastD_cons]
    have := getLastD_eq_getD (b :: t) (by simp) a e
    simpa using this

/-- The last element (with default) of a non-empty list is a member. -/
theorem getLastD_mem' : ∀ (l : List ℚ), l ≠ [] → ∀ (d : ℚ), l.getLastD d ∈ l
  | [a], _, d => by simp
  | a :: b :: t, _, d => by
    rw [List.getLastD_cons]
    exact List.mem_cons_of_mem a (getLastD_mem' (b :: t) (by simp) a)

/-- A zero numerator makes the quotient-sign test false (`0` or `nan`). -/
theorem ratioPos_zero_num (d : ℚ) : ratioPos 0 d = false := by
  unfold ratioPos
  split_ifs <;> simp

/-- A numerator opposite to the denominator makes the sign test false. -/
theorem ratioPos_neg_self (d : ℚ) : ratioPos (-d) d = false := by
  unfold ratioPos
  split_ifs with h
  · simp only [decide_eq_false_iff_not, not_lt]
    linarith
  · simp only [gt_iff_lt, decide_eq_false_iff_not, not_lt]
    linarith

/-- A negative numerator over a positive denominator fails the sign test. -/
theorem ratioPos_neg_pos {n d : ℚ} (hn : n < 0) (hd : 0 < d) :
    ratioPos n d = false := by
  unfold ratioPos
  split_ifs with h
  · linarith
  · simp only [gt_iff_lt, decide_eq_false_iff_not, not_lt]
    linarith

/-- When the sign test fails, the two tested entries straddle zero in one
of the two orders. -/
theorem ratioPos_false_sign {n d : ℚ} (h : ratioPos n d = false) :
    (n ≤ 0 ∧ 0 ≤ d) ∨ (d ≤ 0 ∧ 0 ≤ n) := by
  unfold ratioPos at h
  split_ifs at h with hd
  · right
    simp only [decide_eq_false_iff_not, not_lt] at h
    exact ⟨le_of_lt hd, h⟩
  · left
    simp only [gt_iff_lt, decide_eq_false_iff_not, not_lt] at h
    exact ⟨h, not_lt.mp hd⟩

/-- When the loop condition is already false, the loop exits at once with
the state unchanged, for any fuel. -/
theorem rollLoop_exit {g : Grid} (p : Grid) (fuel : ℕ)
    (h : loopCond g = false) : rollLoop fuel g p = some (g, p, 0) := by
  rw [rollLoop.eq_def]
  simp [h]

/-- C9: for an RA grid whose first row is exactly anti-symmetric about
zero (so the tested quotient is `-1`, `0`, or the `nan` of `0/0`), the
roll loop does not loop at all: the zero-denominator/zero-numerator cases
evaluate as "condition already satisfied" and the loop exits immediately,
returning the grids unchanged after zero iterations. -/
theorem C9_zero_denominator_guard (g p : Grid)
    (hanti : ∀ j < (firstRow g).length,
      (firstRow g).getD j 0 =
        -((firstRow g).getD ((firstRow g).length - 1 - j) 0)) :
    loopCond g = false ∧ ∀ fuel, rollLoop fuel g p = some (g, p, 0) := by
  have hc : loopCond g = false := by
    unfold loopCond
    rcases hr : firstRow g with _ | ⟨a, t⟩
    · unfold raHead raLast
      rw [hr]
      simpa using ratioPos_zero_num 0
    · have hne : firstRow g ≠ [] := by rw [hr]; simp
      have hlen : 0 < (firstRow g).length := by rw [hr]; simp
      have h0 := hanti 0 hlen
      have hhead : raHead g = (firstRow g).getD 0 0 := headD_eq_getD _
      have hlast : raLast g = (firstRow g).getD ((firstRow g).length - 1) 0 :=
        getLastD_eq_getD _ hne 0 0
      rw [hhead, hlast, Nat.sub_zero] at *
      rw [h0]
      exact ratioPos_neg_self _
  exact ⟨hc, fun fuel => rollLoop_exit p fuel hc⟩

/-- Witness for C9 at the anti-symmetric grid `[[-3, -1, 1, 3]]`. -/
theorem C9_zero_denominator_guard_witness :
    (∀ j < (firstRow [[-3, -1, 1, 3]]).length,
      (firstRow [[-3, -1, 1, 3]]).getD j 0 =
        -((firstRow [[-3, -1, 1, 3]]).getD
          ((firstRow [[-3, -1, 1, 3]]).length - 1 - j) 0)) ∧
    loopCond [[-3, -1, 1, 3]] = false ∧
    ∀ fuel, rollLoop fuel [[-3, -1, 1, 3]] [[5, 6, 7, 8]] =
      some ([[-3, -1, 1, 3]], [[5, 6, 7, 8]], 0) := by
  have h : ∀ j < (firstRow [[-3, -1, 1, 3]]).length,
      (firstRow [[-3, -1, 1, 3]]).getD j 0 =
        -((firstRow [[-3, -1, 1, 3]]).getD
          ((firstRow [[-3, -1, 1, 3]]).length - 1 - j) 0) := by
    intro j hj
    simp only [firstRow, List.headD_cons, List.length_cons, List.length_nil] at hj ⊢
    interval_cases j <;> norm_num
  exact ⟨h, C9_zero_denominator_guard [[-3, -1, 1, 3]] [[5, 6, 7, 8]] h⟩

/-- Unfolding of the roll loop when the condition holds and fuel remains. -/
theorem rollLoop_cont (fuel : ℕ) (ra p : Grid) (hc : loopCond ra = true) :
    rollLoop (fuel + 1) ra p =
      match rollLoop fuel (rollGrid ra) (rollGrid p) with
      | none => none
      | some (a, b, k) => some (a, b, k + 1) := by
  rw [rollLoop.eq_def]
  simp [hc]

/-- With the condition true and no fuel, the loop is still running. -/
theorem rollLoop_zero_cont (ra p : Grid) (hc : loopCond ra = true) :
    rollLoop 0 ra p = none := by
  rw [rollLoop.eq_def]
  simp [hc]

/-- Invariants of a successful roll-loop run: the loop exits with the
condition false, the returned grids are the inputs rolled `k` times, and
the iteration count is bounded by the fuel. -/
theorem rollLoop_some :
    ∀ (fuel : ℕ) (ra p a b : Grid) (k : ℕ),
      rollLoop fuel ra p = some (a, b, k) →
      loopCond a = false ∧ a = rollGrid^[k] ra ∧ b = rollGrid^[k] p ∧ k ≤ fuel := by
  intro fuel
  induction fuel with
  | zero =>
    intro ra p a b k h
    by_cases hc : loopCond ra
    · rw [rollLoop_zero_cont ra p hc] at h
      exact absurd h (by simp)
    · have hcf : loopCond ra = false := by simpa using hc
      rw [rollLoop_exit p 0 hcf] at h
      obtain ⟨h1, h2, h3⟩ : ra = a ∧ p = b ∧ 0 = k := by
        simpa [Prod.ext_iff] using h
      subst h1
      subst h2
      subst h3
      simpa using hcf
  | succ n ih =>
    intro ra p a b k h
    by_cases hc : loopCond ra
    · rw [rollLoop_cont n ra p hc] at h
      rcases hr : rollLoop n (rollGrid ra) (rollGrid p) with _ | ⟨a', b', k'⟩
      · rw [hr] at h
        simp at h
      · rw [hr] at h
        obtain ⟨h1, h2, h3⟩ : a' = a ∧ b' = b ∧ k' + 1 = k := by
          simpa [Prod.ext_iff] using h
        obtain ⟨hca, ha, hb, hk⟩ := ih _ _ _ _ _ hr
        subst h1
        subst h2
        subst h3
        refine ⟨hca, ?_, ?_, by omega⟩
        · rw [ha, ← Function.iterate_succ_apply]
        · rw [hb, ← Function.iterate_succ_apply]
    · have hcf : loopCond ra = false := by simpa using hc
      rw [rollLoop_exit p (n + 1) hcf] at h
      obtain ⟨h1, h2, h3⟩ : ra = a ∧ p = b ∧ 0 = k := by
        simpa [Prod.ext_iff] using h
      subst h1
      subst h2
      subst h3
      simpa using hcf

/-- If some rotation within the fuel bound falsifies the loop condition,
the roll loop exits, after at most that many iterations. -/
theorem rollLoop_exits :
    ∀ (k fuel : ℕ) (ra p : Grid),
      loopCond (rollGrid^[k] ra) = false → k ≤ fuel →
      ∃ a b k', rollLoop fuel ra p = some (a, b, k') ∧ k' ≤ k := by
  intro k
  induction k with
  | zero =>
    intro fuel ra p h _
    simp only [Function.iterate_zero, id_eq] at h
    exact ⟨ra, p, 0, rollLoop_exit p fuel h, le_refl 0⟩
  | succ n ih =>
    intro fuel ra p h hk
    by_cases hc : loopCond ra
    · cases fuel with
      | zero => omega
      | succ f =>
        have h' : loopCond (rollGrid^[n] (rollGrid ra)) = false := by
          rwa [← Function.iterate_succ_apply]
        obtain ⟨a, b, k', hr, hk'⟩ := ih f (rollGrid ra) (rollGrid p) h' (by omega)
        refine ⟨a, b, k' + 1, ?_, by omega⟩
        rw [rollLoop_cont f ra p hc, hr]
    · have hcf : loopCond ra = false := by simpa using hc
      exact ⟨ra, p, 0, rollLoop_exit p fuel hcf, by omega⟩

/-- Rolling the grid rotates its first row. -/
theorem firstRow_rollGrid (g : Grid) :
    firstRow (rollGrid g) = (firstRow g).rotate 1 := by
  cases g <;> simp [firstRow, rollGrid]

/-- Iterated rolls rotate the first row by the iteration count. -/
theorem firstRow_iterate :
    ∀ (k : ℕ) (g : Grid), firstRow (rollGrid^[k] g) = (firstRow g).rotate k := by
  intro k
  induction k with
  | zero => intro g; simp
  | succ n ih =>
    intro g
    rw [Function.iterate_succ_apply, ih, firstRow_rollGrid, List.rotate_rotate,
      Nat.add_comm]

/-- Reading a rotated list at an in-range index. -/
theorem rotate_getD (r : List ℚ) (n i : ℕ) (hi : i < r.length) :
    (r.rotate n).getD i 0 = r.getD ((i + n) % r.length) 0 := by
  rw [List.getD_eq_getD_get?, List.getD_eq_getD_get?, List.get?_rotate hi]

/-- Head of a rotation by an in-range amount. -/
theorem rotate_headD (r : List ℚ) (k : ℕ) (hk : k < r.length) :
    (r.rotate k).headD 0 = r.getD k 0 := by
  have h0 : 0 < r.length := by omega
  rw [headD_eq_getD, rotate_getD r k 0 h0, Nat.zero_add, Nat.mod_eq_of_lt hk]

/-- Last element of a rotation by an in-range amount. -/
theorem rotate_getLastD (r : List ℚ) (k : ℕ) (hk : k < r.length) (hne : r ≠ []) :
    (r.rotate k).getLastD 0 = r.getD ((k + r.length - 1) % r.length) 0 := by
  have hlen : (r.rotate k).length = r.length := List.length_rotate r k
  have hne' : r.rotate k ≠ [] := by
    intro hcon
    rw [hcon] at hlen
    simp at hlen
    exact hne (List.length_eq_zero.mp hlen.symm)
  rw [getLastD_eq_getD _ hne' 0 0, hlen, rotate_getD r k (r.length - 1) (by omega)]
  have harg : r.length - 1 + k = k + r.length - 1 := by omega
  rw [harg]

/-- Dropping the head of a list with a non-empty tail does not change the
last element, whatever the defaults. -/
theorem getLastD_cons_of_ne (a : ℚ) (t : List ℚ) (ht : t ≠ []) (d e : ℚ) :
    (a :: t).getLastD d = t.getLastD e := by
  rw [getLastD_eq_getD (a :: t) (by simp) d 0, getLastD_eq_getD t ht e 0]
  have hpos : 0 < t.length := List.length_pos.mpr ht
  have hlen : (a :: t).length - 1 = (t.length - 1) + 1 := by
    simp only [List.length_cons]
    omega
  rw [hlen, List.getD_cons_succ]

/-- A positive entry immediately followed by a negative entry occurs
somewhere in the list. -/
def hasPNpair : List ℚ → Prop
  | a :: b :: t => (0 < a ∧ b < 0) ∨ hasPNpair (b :: t)
  | _ => False

/-- Extract the adjacent positive/negative indices from `hasPNpair`. -/
theorem hasPNpair_getD :
    ∀ (L : List ℚ), hasPNpair L →
      ∃ i, i + 1 < L.length ∧ 0 < L.getD i 0 ∧ L.getD (i + 1) 0 < 0 := by
  intro L
  induction L with
  | nil => intro h; simp [hasPNpair] at h
  | cons a t ih =>
    intro h
    cases t with
    | nil => simp [hasPNpair] at h
    | cons b t' =>
      simp only [hasPNpair] at h
      rcases h with ⟨ha, hb⟩ | h'
      · exact ⟨0, by simp, by simpa using ha, by simpa using hb⟩
      · obtain ⟨i, hi, h1, h2⟩ := ih h'
        refine ⟨i + 1, ?_, by simpa using h1, by simpa using h2⟩
        simpa using Nat.succ_lt_succ hi

/-- Walking right from a positive head along nonzero entries toward some
negative entry passes an adjacent positive/negative pair. -/
theorem hasPNpair_of_head_pos :
    ∀ (L : List ℚ) (a : ℚ), 0 < a → (∀ z ∈ L, z ≠ 0) →
      (∃ x ∈ L, x < 0) → hasPNpair (a :: L) := by
  intro L
  induction L with
  | nil =>
    intro a _ _ hx
    simp at hx
  | cons b t ih =>
    intro a ha hnz hx
    rcases lt_or_gt_of_ne (hnz b (by simp)) with hb | hb
    · exact Or.inl ⟨ha, hb⟩
    · refine Or.inr (ih b hb (fun z hz => hnz z (by simp [hz])) ?_)
      obtain ⟨x, hxm, hx0⟩ := hx
      rcases List.mem_cons.mp hxm with rfl | hxt
      · exact absurd hx0 (by linarith)
      · exact ⟨x, hxt, hx0⟩

/-- A nonzero list with a positive entry and a negative last element
contains an adjacent positive/negative pair. -/
theorem hasPNpair_of_last_neg :
    ∀ (L : List ℚ), (∀ z ∈ L, z ≠ 0) → (∃ y ∈ L, 0 < y) →
      L.getLastD 0 < 0 → hasPNpair L := by
  intro L
  induction L with
  | nil =>
    intro _ hy _
    simp at hy
  | cons a t ih =>
    intro hnz hy hlast
    rcases lt_or_gt_of_ne (hnz a (by simp)) with ha | ha
    · obtain ⟨y, hym, hy0⟩ := hy
      have hyt : y ∈ t := by
        rcases List.mem_cons.mp hym with rfl | h
        · exact absurd hy0 (by linarith)
        · exact h
      have htne : t ≠ [] := by rintro rfl; simp at hyt
      have hlast' : t.getLastD 0 < 0 := by
        rwa [getLastD_cons_of_ne a t htne 0 0] at hlast
      have h' := ih (fun z hz => hnz z (by simp [hz])) ⟨y, hyt, hy0⟩ hlast'
      cases t with
      | nil => exact absurd rfl htne
      | cons b t' => exact Or.inr h'
    · have htne : t ≠ [] := by
        rintro rfl
        have hone : ([a] : List ℚ).getLastD 0 = a := rfl
        rw [hone] at hlast
        linarith
      have hlast' : t.getLastD 0 < 0 := by
        rwa [getLastD_cons_of_ne a t htne 0 0] at hlast
      exact hasPNpair_of_head_pos t a ha (fun z hz => hnz z (by simp [hz]))
        ⟨t.getLastD 0, getLastD_mem' t htne 0, hlast'⟩

/-- Cyclic exit lemma: if a non-empty row has a nonpositive entry and a
nonnegative entry, then some rotation of it — i.e. some reachable state of
the roll loop — falsifies the loop condition within one period. -/
theorem exists_exit_rotation (r : List ℚ) (hne : r ≠ [])
    (hp : ∃ y ∈ r, 0 ≤ y) (hn : ∃ x ∈ r, x ≤ 0) :
    ∃ k < r.length,
      ratioPos ((r.rotate k).headD 0) ((r.rotate k).getLastD 0) = false := by
  by_cases hz : ∃ k < r.length, r.getD k 0 = 0
  · obtain ⟨k, hk, h0⟩ := hz
    refine ⟨k, hk, ?_⟩
    rw [rotate_headD r k hk, h0]
    exact ratioPos_zero_num _
  · push_neg at hz
    have hnz : ∀ z ∈ r, z ≠ 0 := by
      intro z hzm hz0
      obtain ⟨i, hi, hgi⟩ := List.mem_iff_getElem.mp hzm
      exact hz i hi (by rw [List.getD_eq_getElem _ _ hi, hgi, hz0])
    obtain ⟨y, hym, hy0⟩ := hp
    obtain ⟨x, hxm, hx0⟩ := hn
    have hy' : 0 < y := lt_of_le_of_ne hy0 (Ne.symm (hnz y hym))
    have hx' : x < 0 := lt_of_le_of_ne hx0 (hnz x hxm)
    have hL : hasPNpair (r.getLastD 0 :: r) := by
      rcases lt_or_gt_of_ne (hnz _ (getLastD_mem' r hne 0)) with hl | hl
      · apply hasPNpair_of_last_neg
        · intro z hz'
          rcases List.mem_cons.mp hz' with rfl | h
          · exact hnz _ (getLastD_mem' r hne 0)
          · exact hnz z h
        · exact ⟨y, List.mem_cons_of_mem _ hym, hy'⟩
        · rw [getLastD_cons_of_ne _ r hne 0 0]
          exact hl
      · exact hasPNpair_of_head_pos r _ hl hnz ⟨x, hxm, hx'⟩
    obtain ⟨i, hi, hpos, hneg⟩ := hasPNpair_getD _ hL
    have hik : i < r.length := by
      simp only [List.length_cons] at hi
      omega
    refine ⟨i, hik, ?_⟩
    have hnum : r.getD i 0 < 0 := by
      rwa [List.getD_cons_succ] at hneg
    have hden : 0 < r.getD ((i + r.length - 1) % r.length) 0 := by
      cases i with
      | zero =>
        have hlpos : 0 < r.length := List.length_pos.mpr hne
        have h1 : (0 + r.length - 1) % r.length = r.length - 1 := by
          rw [Nat.zero_add]
          exact Nat.mod_eq_of_lt (by omega)
        rw [h1]
        rw [List.getD_cons_zero] at hpos
        rwa [getLastD_eq_getD r hne 0 0] at hpos
      | succ j =>
        have hjlt : j < r.length := by omega
        have h1 : (j + 1 + r.length - 1) % r.length = j := by
          have heq : j + 1 + r.length - 1 = j + r.length := by omega
          rw [heq, Nat.add_mod_right]
          exact Nat.mod_eq_of_lt hjlt
        rw [h1]
        rwa [List.getD_cons_succ] at hpos
    rw [rotate_headD r i hik, rotate_getLastD r i hik hne]
    exact ratioPos_neg_pos hnum hden

/-- C1 counterexample: the wrapped shifted monotonic ramp
`[-45, 45, 135, -135]` (the ramp `[-180, -90, 0, 90]` with offset `+135°`,
wrapped) makes the roll loop exit after one roll in the state
`[45, 135, -135, -45]`, whose first RA entry is `45 > 0` — so the loop does
not exit with `ra[0,0] ≤ 0 ≤ ra[0,-1]`, and no zero denominator is
involved.  Moreover on the corrupt all-positive grid `[[10, 10, 10, 10]]`
the loop is still running after its fuel of `5 > grid_width` iterations is
spent: the script has no iteration cap and raises no fatal error. -/
theorem C1_counterexample :
    rollLoop 4 [[-45, 45, 135, -135]] [[1, 2, 3, 4]] =
      some ([[45, 135, -135, -45]], [[2, 3, 4, 1]], 1) ∧
    ¬ (raHead [[45, 135, -135, -45]] ≤ 0 ∧
        0 ≤ raLast [[45, 135, -135, -45]]) ∧
    raLast [[-45, 45, 135, -135]] ≠ 0 ∧
    raLast [[45, 135, -135, -45]] ≠ 0 ∧
    rollLoop 5 [[10, 10, 10, 10]] [[1, 1, 1, 1]] = none := by
  refine ⟨?_, ?_, ?_, ?_, ?_⟩ <;> decide

/-- C1 (amended): for every RA grid whose first row contains a nonpositive
and a nonnegative entry — which includes every wrapped shifted monotonic
ramp with at least two columns — the roll loop terminates in strictly
fewer than `grid_width` roll steps, and exits in a state whose first and
last RA entries straddle zero in one of the two orders:
`ra[0,0] ≤ 0 ≤ ra[0,-1]` or `ra[0,-1] ≤ 0 ≤ ra[0,0]`.  The script itself
imposes no iteration cap and signals no error when `grid_width` is
exceeded; on a grid violating this hypothesis the loop can run forever. -/
theorem C1_roll_loop_bounded (g p : Grid) (fuel : ℕ)
    (hfuel : (firstRow g).length ≤ fuel)
    (hpos : ∃ y ∈ firstRow g, 0 ≤ y) (hneg : ∃ x ∈ firstRow g, x ≤ 0) :
    ∃ a b k, rollLoop fuel g p = some (a, b, k) ∧ k < (firstRow g).length ∧
      ((raHead a ≤ 0 ∧ 0 ≤ raLast a) ∨ (raLast a ≤ 0 ∧ 0 ≤ raHead a)) := by
  have hne : firstRow g ≠ [] := by
    obtain ⟨y, hym, _⟩ := hpos
    intro h
    rw [h] at hym
    simp at hym
  obtain ⟨k, hk, hcond⟩ := exists_exit_rotation (firstRow g) hne hpos hneg
  have hck : loopCond (rollGrid^[k] g) = false := by
    unfold loopCond raHead raLast
    rw [firstRow_iterate k g]
    exact hcond
  obtain ⟨a, b, k', hroll, hk'⟩ := rollLoop_exits k fuel g p hck (by omega)
  refine ⟨a, b, k', hroll, by omega, ?_⟩
  have hca := (rollLoop_some fuel g p a b k' hroll).1
  unfold loopCond at hca
  exact ratioPos_false_sign hca

/-- Witness for C1 (amended) at the wrapped shifted ramp
`[-45, 45, 135, -135]` with fuel equal to the grid width `4`. -/
theorem C1_roll_loop_bounded_witness :
    (firstRow [[-45, 45, 135, -135]]).length ≤ 4 ∧
    (∃ y ∈ firstRow [[-45, 45, 135, -135]], 0 ≤ y) ∧
    (∃ x ∈ firstRow [[-45, 45, 135, -135]], x ≤ 0) ∧
    ∃ a b k, rollLoop 4 [[-45, 45, 135, -135]] [[1, 2, 3, 4]] =
        some (a, b, k) ∧
      k < (firstRow [[-45, 45, 135, -135]]).length ∧
      ((raHead a ≤ 0 ∧ 0 ≤ raLast a) ∨ (raLast a ≤ 0 ∧ 0 ≤ raHead a)) :=
  ⟨by decide, by decide, by decide,
    C1_roll_loop_bounded [[-45, 45, 135, -135]] [[1, 2, 3, 4]] 4
      (by decide) (by decide) (by decide)⟩

/-! ## Lemmas about the peak finder and the event pipeline -/

/-- The value component of `argmaxPair` is the element at its index. -/
theorem argmaxPair_getD :
    ∀ (l : List ℚ), l ≠ [] → l.getD (argmaxPair l).1 0 = (argmaxPair l).2
  | [], h => absurd rfl h
  | [x], _ => rfl
  | x :: y :: rest, _ => by
    simp only [argmaxPair]
    by_cases hp : (argmaxPair (y :: rest)).2 > x
    · rw [if_pos hp]
      simp only [List.getD_cons_succ]
      exact argmaxPair_getD (y :: rest) (by simp)
    · rw [if_neg hp]
      simp

/-- Every element is bounded by the value component of `argmaxPair`. -/
theorem argmaxPair_max :
    ∀ (l : List ℚ) (j : ℕ), j < l.length → l.getD j 0 ≤ (argmaxPair l).2
  | [], j, hj => by simp at hj
  | [x], j, hj => by
    have : j = 0 := by simpa using hj
    subst this
    simp [argmaxPair]
  | x :: y :: rest, j, hj => by
    simp only [argmaxPair]
    by_cases hp : (argmaxPair (y :: rest)).2 > x
    · rw [if_pos hp]
      cases j with
      | zero => simpa using le_of_lt hp
      | succ j' =>
        have h' : j' < (y :: rest).length := by
          simp only [List.length_cons] at hj ⊢
          omega
        have := argmaxPair_max (y :: rest) j' h'
        simpa using this
    · rw [if_neg hp]
      push_neg at hp
      cases j with
      | zero => simp
      | succ j' =>
        have h' : j' < (y :: rest).length := by
          simp only [List.length_cons] at hj ⊢
          omega
        have := argmaxPair_max (y :: rest) j' h'
        simp only [List.getD_cons_succ, List.getD_cons_zero]
        exact le_trans this hp

/-- A colorspec naming neither `error_region` nor `snr` leaves the
module-level line-color binding untouched. -/
theorem linecolorAfter_other (cfg : LabelCfg) (a b : ℚ) (st : Option Color)
    (h1 : cfg.quant ≠ some "error_region".data)
    (h2 : cfg.quant ≠ some "snr".data) :
    linecolorAfter cfg a b st = st := by
  unfold linecolorAfter
  rw [if_neg h1, if_neg h2]

/-- A failed SNR read is the event's outcome: the python exception raised
at the `open`/parse of lines 242-248 propagates out of the loop body. -/
theorem processEvent_snr_error (ext : Externals) (cfg : LabelCfg)
    (fs : TextFS) (fuel : ℕ) (st : Option Color) (store : NpzStore)
    (ev : EventInput) (e : EventErr)
    (hsnr : readSNR fs (snrPath ev.filename) = .error e) :
    processEvent ext cfg fs fuel st store ev = .error e := by
  simp only [processEvent, hsnr]

/-- Evaluation of the loop body on the happy path, from the outcomes of
its fallible steps. -/
theorem processEvent_ok (ext : Externals) (cfg : LabelCfg) (fs : TextFS)
    (fuel : ℕ) (st : Option Color) (store : NpzStore) (ev : EventInput)
    (snrs : List (List Char × ℚ)) (netSNR : ℚ) (raR probR : Grid) (k : ℕ)
    (lc : Color)
    (hsnr : readSNR fs (snrPath ev.filename) = .ok snrs)
    (hnet : snrs.lookup "Network".data = some netSNR)
    (hroll : rollLoop fuel
        (raWrapped (raDegrees ext.pi
          (raShifted ext.pi (gmstOf ev) (cachedTriple store ev).ra)))
        (cachedTriple store ev).prob = some (raR, probR, k))
    (hidx : searchsorted ev.cumul (68 / 100) < ev.probs.length)
    (hcolor : linecolorAfter cfg
        ((searchsorted ev.cumul (68 / 100) : ℚ) * ev.pixSize) netSNR st =
        some lc) :
    processEvent ext cfg fs fuel st store ev =
      .ok (⟨decide ((searchsorted ev.cumul (68 / 100) : ℚ) * ev.pixSize > 64),
        ((searchsorted ev.cumul (68 / 100) : ℚ) * ev.pixSize, netSNR,
          ext.antennaPt (gmstOf ev)
            (raMaxOf ext raR (cachedTriple store ev).dec probR)
            (decMaxOf ext raR (cachedTriple store ev).dec probR)), lc⟩,
        some lc, cachedStore store ev) := by
  simp only [processEvent, hsnr, hnet, hroll, hcolor, hidx, if_true]

/-! ## Concrete run instances -/

/-- External collaborators for concrete runs: a rational stand-in for
`np.pi`, a projection that passes coordinates through, and an antenna
model returning `time + ra + dec`. -/
def smallExt : Externals :=
  ⟨3, fun r _ => r, fun _ d => d, fun t r d => t + r + d⟩

/-- A colorspec of the `snr,colormap` form, constant red colormap. -/
def snrCfg : LabelCfg := ⟨some "snr".data, fun _ => "red".data⟩

/-- A bare-color colorspec, i.e. `quant = None`, constant blue colormap. -/
def bareCfg : LabelCfg := ⟨none, fun _ => "blue".data⟩

/-- A well-formed event: map file `a/b/c.fits.gz`, injection time `0`,
cumulative sequence `[1/2, 1]` (68% pixel rank 1), per-pixel area
`100 deg²` (so the 68% area is `100 > 64`: flagged non-converged), and a
1×2 interpolated grid triple. -/
def smallEvent : EventInput :=
  ⟨"a/b/c.fits.gz".data, 0, [1/2, 1], [1/2, 1/2], 100,
    ⟨[[-1, 1]], [[0, 0]], [[5, 7]]⟩⟩

/-- The SNR file colocated two directories above `smallEvent`'s map:
`a/snr.txt`, holding a network SNR of `12`. -/
def smallFS : TextFS := [("a/snr.txt".data, ["Network: 12".data])]

/-- An event whose SNR file `x/snr.txt` does not exist in `smallFS`. -/
def orphanEvent : EventInput :=
  ⟨"x/y/z.fits.gz".data, 0, [1/2, 1], [1/2, 1/2], 100,
    ⟨[[-1, 1]], [[0, 0]], [[5, 7]]⟩⟩

/-- Evaluation of the rotation and roll loop on `smallEvent`: the shift by
`gmst = 0` and the two unit conversions give `[[-15, 15]]`, wraparound is
the identity there, and the loop condition is false at entry. -/
theorem smallEvent_roll (store : NpzStore)
    (h : cachedTriple store smallEvent = smallEvent.interp) :
    rollLoop 4 (raWrapped (raDegrees smallExt.pi
        (raShifted smallExt.pi (gmstOf smallEvent)
          (cachedTriple store smallEvent).ra)))
      (cachedTriple store smallEvent).prob = some ([[-15, 15]], [[5, 7]], 0) := by
  rw [h]
  have hg : gmstOf smallEvent = 0 := by
    norm_num [gmstOf, qmod, smallEvent]
  rw [hg]
  have hra : raWrapped (raDegrees smallExt.pi
      (raShifted smallExt.pi 0 smallEvent.interp.ra)) = [[-15, 15]] := by
    norm_num [raWrapped, raDegrees, raShifted, gridMap, smallExt, smallEvent,
      wrapRA]
  rw [hra]
  have hc : loopCond [[-15, 15]] = false := by
    norm_num [loopCond, ratioPos, raHead, raLast, firstRow]
  exact rollLoop_exit _ 4 hc

/-- C3: an event whose 68% credible area exceeds the 64 deg² sanity
threshold is only flagged as non-converged (the script prints a warning;
its `continue` is commented out): processing runs through every remaining
stage, and the aggregate record `(area_68, network_snr, antenna_response)`
is still produced and appended to the label's record list. -/
theorem C3_nonconvergence_flag_only (ext : Externals) (cfg : LabelCfg)
    (fs : TextFS) (fuel : ℕ) (st : Option Color) (store : NpzStore)
    (ev : EventInput) (snrs : List (List Char × ℚ)) (netSNR : ℚ)
    (raR probR : Grid) (k : ℕ) (lc : Color)
    (hflag : (searchsorted ev.cumul (68 / 100) : ℚ) * ev.pixSize > 64)
    (hsnr : readSNR fs (snrPath ev.filename) = .ok snrs)
    (hnet : snrs.lookup "Network".data = some netSNR)
    (hroll : rollLoop fuel
        (raWrapped (raDegrees ext.pi
          (raShifted ext.pi (gmstOf ev) (cachedTriple store ev).ra)))
        (cachedTriple store ev).prob = some (raR, probR, k))
    (hidx : searchsorted ev.cumul (68 / 100) < ev.probs.length)
    (hcolor : linecolorAfter cfg
        ((searchsorted ev.cumul (68 / 100) : ℚ) * ev.pixSize) netSNR st =
        some lc) :
    processEvent ext cfg fs fuel st store ev =
      .ok (⟨true,
        ((searchsorted ev.cumul (68 / 100) : ℚ) * ev.pixSize, netSNR,
          ext.antennaPt (gmstOf ev)
            (raMaxOf ext raR (cachedTriple store ev).dec probR)
            (decMaxOf ext raR (cachedTriple store ev).dec probR)), lc⟩,
        some lc, cachedStore store ev) ∧
    processEvents ext cfg fs fuel st store [ev] =
      .ok ([⟨true,
        ((searchsorted ev.cumul (68 / 100) : ℚ) * ev.pixSize, netSNR,
          ext.antennaPt (gmstOf ev)
            (raMaxOf ext raR (cachedTriple store ev).dec probR)
            (decMaxOf ext raR (cachedTriple store ev).dec probR)), lc⟩],
        some lc, cachedStore store ev) := by
  have h := processEvent_ok ext cfg fs fuel st store ev snrs netSNR raR probR
    k lc hsnr hnet hroll hidx hcolor
  rw [decide_eq_true hflag] at h
  exact ⟨h, by simp only [processEvents, h]⟩

/-- Witness for C3: `smallEvent` has a 68% area of 100 deg² (> 64, so it
is flagged) and still yields its record in the batch output. -/
theorem C3_nonconvergence_flag_only_witness :
    (searchsorted smallEvent.cumul (68 / 100) : ℚ) * smallEvent.pixSize > 64 ∧
    (processEvent smallExt snrCfg smallFS 4 none [] smallEvent =
      .ok (⟨true,
        ((searchsorted smallEvent.cumul (68 / 100) : ℚ) * smallEvent.pixSize,
          12, smallExt.antennaPt (gmstOf smallEvent)
            (raMaxOf smallExt [[-15, 15]] (cachedTriple [] smallEvent).dec
              [[5, 7]])
            (decMaxOf smallExt [[-15, 15]] (cachedTriple [] smallEvent).dec
              [[5, 7]])), "red".data⟩,
        some "red".data, cachedStore [] smallEvent) ∧
    processEvents smallExt snrCfg smallFS 4 none [] [smallEvent] =
      .ok ([⟨true,
        ((searchsorted smallEvent.cumul (68 / 100) : ℚ) * smallEvent.pixSize,
          12, smallExt.antennaPt (gmstOf smallEvent)
            (raMaxOf smallExt [[-15, 15]] (cachedTriple [] smallEvent).dec
              [[5, 7]])
            (decMaxOf smallExt [[-15, 15]] (cachedTriple [] smallEvent).dec
              [[5, 7]])), "red".data⟩],
        some "red".data, cachedStore [] smallEvent)) :=
  ⟨by norm_num [smallEvent, searchsorted],
    C3_nonconvergence_flag_only smallExt snrCfg smallFS 4 none [] smallEvent
      [("Network".data, 12)] 12 [[-15, 15]] [[5, 7]] 0 "red".data
      (by norm_num [smallEvent, searchsorted]) rfl rfl
      (smallEvent_roll [] rfl)
      (by norm_num [smallEvent, searchsorted]) rfl⟩

/-- C4: for every event (all fallible steps succeeding), the peak is the
flat row-major index of the (first) maximum of the rotated probability
grid; the peak coordinates are the values of the two coordinate grids at
exactly that index; and the recorded antenna response is
`net_antenna_pattern_point` applied at exactly those peak coordinates and
the event's sidereal time. -/
theorem C4_peak_antenna (ext : Externals) (cfg : LabelCfg) (fs : TextFS)
    (fuel : ℕ) (st : Option Color) (store : NpzStore) (ev : EventInput)
    (snrs : List (List Char × ℚ)) (netSNR : ℚ) (raR probR : Grid) (k : ℕ)
    (lc : Color)
    (hsnr : readSNR fs (snrPath ev.filename) = .ok snrs)
    (hnet : snrs.lookup "Network".data = some netSNR)
    (hroll : rollLoop fuel
        (raWrapped (raDegrees ext.pi
          (raShifted ext.pi (gmstOf ev) (cachedTriple store ev).ra)))
        (cachedTriple store ev).prob = some (raR, probR, k))
    (hidx : searchsorted ev.cumul (68 / 100) < ev.probs.length)
    (hcolor : linecolorAfter cfg
        ((searchsorted ev.cumul (68 / 100) : ℚ) * ev.pixSize) netSNR st =
        some lc)
    (hne : gridJoin probR ≠ []) :
    ∃ res rest,
      processEvent ext cfg fs fuel st store ev = .ok (res, rest) ∧
      res.record.2.2 = ext.antennaPt (gmstOf ev)
        (raMaxOf ext raR (cachedTriple store ev).dec probR)
        (decMaxOf ext raR (cachedTriple store ev).dec probR) ∧
      raMaxOf ext raR (cachedTriple store ev).dec probR =
        (gridJoin (raProjected ext raR (cachedTriple store ev).dec)).getD
          (peakIdx probR) 0 ∧
      decMaxOf ext raR (cachedTriple store ev).dec probR =
        (gridJoin (decProjected ext raR (cachedTriple store ev).dec)).getD
          (peakIdx probR) 0 ∧
      (gridJoin probR).getD (peakIdx probR) 0 =
        (argmaxPair (gridJoin probR)).2 ∧
      ∀ j < (gridJoin probR).length,
        (gridJoin probR).getD j 0 ≤ (gridJoin probR).getD (peakIdx probR) 0 := by
  have hpk : (gridJoin probR).getD (peakIdx probR) 0 =
      (argmaxPair (gridJoin probR)).2 := by
    unfold peakIdx
    exact argmaxPair_getD _ hne
  refine ⟨_, _,
    processEvent_ok ext cfg fs fuel st store ev snrs netSNR raR probR k lc
      hsnr hnet hroll hidx hcolor,
    rfl, rfl, rfl, hpk, ?_⟩
  intro j hj
  rw [hpk]
  exact argmaxPair_max _ j hj

/-- Witness for C4 on `smallEvent`: the peak of `[[5, 7]]` sits at flat
index 1, and the recorded response is the antenna model at the projected
coordinates of that index and sidereal time 0. -/
theorem C4_peak_antenna_witness :
    readSNR smallFS (snrPath smallEvent.filename) =
      .ok [("Network".data, 12)] ∧
    gridJoin [[5, 7]] ≠ ([] : List ℚ) ∧
    ∃ res rest,
      processEvent smallExt snrCfg smallFS 4 none [] smallEvent =
        .ok (res, rest) ∧
      res.record.2.2 = smallExt.antennaPt (gmstOf smallEvent)
        (raMaxOf smallExt [[-15, 15]] (cachedTriple [] smallEvent).dec
          [[5, 7]])
        (decMaxOf smallExt [[-15, 15]] (cachedTriple [] smallEvent).dec
          [[5, 7]]) ∧
      raMaxOf smallExt [[-15, 15]] (cachedTriple [] smallEvent).dec [[5, 7]] =
        (gridJoin (raProjected smallExt [[-15, 15]]
          (cachedTriple [] smallEvent).dec)).getD (peakIdx [[5, 7]]) 0 ∧
      decMaxOf smallExt [[-15, 15]] (cachedTriple [] smallEvent).dec [[5, 7]] =
        (gridJoin (decProjected smallExt [[-15, 15]]
          (cachedTriple [] smallEvent).dec)).getD (peakIdx [[5, 7]]) 0 ∧
      (gridJoin [[5, 7]]).getD (peakIdx [[5, 7]]) 0 =
        (argmaxPair (gridJoin [[5, 7]])).2 ∧
      ∀ j < (gridJoin [[5, 7]]).length,
        (gridJoin [[5, 7]]).getD j 0 ≤
          (gridJoin [[5, 7]]).getD (peakIdx [[5, 7]]) 0 :=
  ⟨rfl, by simp [gridJoin],
    C4_peak_antenna smallExt snrCfg smallFS 4 none [] smallEvent
      [("Network".data, 12)] 12 [[-15, 15]] [[5, 7]] 0 "red".data
      rfl rfl (smallEvent_roll [] rfl)
      (by norm_num [smallEvent, searchsorted]) rfl (by simp [gridJoin])⟩

/-- C2 counterexample: a batch of two events in which the first event's
SNR file is missing.  The batch evaluates to the uncaught error — no
record list at all is produced and the second event is never processed —
although the second event on its own processes successfully.  So a
missing SNR file is not "fatal for that event only": it aborts the batch. -/
theorem C2_counterexample :
    processEvents smallExt snrCfg smallFS 4 none []
      [orphanEvent, smallEvent] = .error .missingSNRFile ∧
    processEvent smallExt snrCfg smallFS 4 none [] smallEvent =
      .ok (⟨decide ((searchsorted smallEvent.cumul (68 / 100) : ℚ) *
          smallEvent.pixSize > 64),
        ((searchsorted smallEvent.cumul (68 / 100) : ℚ) * smallEvent.pixSize,
          12, smallExt.antennaPt (gmstOf smallEvent)
            (raMaxOf smallExt [[-15, 15]] (cachedTriple [] smallEvent).dec
              [[5, 7]])
            (decMaxOf smallExt [[-15, 15]] (cachedTriple [] smallEvent).dec
              [[5, 7]])), "red".data⟩,
        some "red".data, cachedStore [] smallEvent) := by
  constructor
  · have h := processEvent_snr_error smallExt snrCfg smallFS 4 none []
      orphanEvent .missingSNRFile rfl
    simp only [processEvents, h]
  · exact processEvent_ok smallExt snrCfg smallFS 4 none [] smallEvent
      [("Network".data, 12)] 12 [[-15, 15]] [[5, 7]] 0 "red".data
      rfl rfl (smallEvent_roll [] rfl)
      (by norm_num [smallEvent, searchsorted]) rfl

/-- C2 (amended): a missing or malformed per-event SNR file is fatal for
the whole batch, not for that event only: the uncaught exception aborts
the event loop, so the batch evaluates to an error, no aggregate record
list is produced, and the files after the failing one are never
processed. -/
theorem C2_snr_failure_aborts_batch (ext : Externals) (cfg : LabelCfg)
    (fs : TextFS) (fuel : ℕ) (st : Option Color) (store : NpzStore)
    (pre post : List EventInput) (ev : EventInput) (e : EventErr)
    (hsnr : readSNR fs (snrPath ev.filename) = .error e) :
    ∃ e', processEvents ext cfg fs fuel st store (pre ++ ev :: post) =
      .error e' := by
  induction pre generalizing st store with
  | nil =>
    refine ⟨e, ?_⟩
    have h := processEvent_snr_error ext cfg fs fuel st store ev e hsnr
    simp only [List.nil_append, processEvents, h]
  | cons a pre' ih =>
    rcases hpa : processEvent ext cfg fs fuel st store a with e'' |
      ⟨res, st', store'⟩
    · exact ⟨e'', by simp only [List.cons_append, processEvents, hpa]⟩
    · obtain ⟨e', h'⟩ := ih st' store'
      exact ⟨e', by
        simp only [List.cons_append, processEvents, hpa, List.append_eq, h']⟩

/-- Witness for C2 (amended): `orphanEvent` at the head of a batch whose
tail holds the processable `smallEvent`; the batch evaluates to an error. -/
theorem C2_snr_failure_aborts_batch_witness :
    readSNR smallFS (snrPath orphanEvent.filename) =
      .error .missingSNRFile ∧
    ∃ e', processEvents smallExt snrCfg smallFS 4 none []
      ([] ++ orphanEvent :: [smallEvent]) = .error e' :=
  ⟨rfl, C2_snr_failure_aborts_batch smallExt snrCfg smallFS 4 none []
    [] [smallEvent] orphanEvent .missingSNRFile rfl⟩

/-- C10 (amended): under a label whose colorspec names neither
`error_region` nor `snr` (for example the bare-color form, `quant = None`),
processing the first event fails with the unbound line-color error —
before its contour is drawn or its record appended, and aborting every
remaining event — exactly when no earlier processed event, under any
label, assigned the module-level `linecolor` binding; when an earlier
event did assign it, the stale color is silently reused and processing
continues (see the counterexample). -/
theorem C10_unbound_linecolor (ext : Externals) (cfg : LabelCfg)
    (fs : TextFS) (fuel : ℕ) (store : NpzStore) (ev : EventInput)
    (rest : List EventInput) (snrs : List (List Char × ℚ)) (netSNR : ℚ)
    (raR probR : Grid) (k : ℕ)
    (hq1 : cfg.quant ≠ some "error_region".data)
    (hq2 : cfg.quant ≠ some "snr".data)
    (hsnr : readSNR fs (snrPath ev.filename) = .ok snrs)
    (hnet : snrs.lookup "Network".data = some netSNR)
    (hroll : rollLoop fuel
        (raWrapped (raDegrees ext.pi
          (raShifted ext.pi (gmstOf ev) (cachedTriple store ev).ra)))
        (cachedTriple store ev).prob = some (raR, probR, k))
    (hidx : searchsorted ev.cumul (68 / 100) < ev.probs.length) :
    processEvent ext cfg fs fuel none store ev = .error .unboundLinecolor ∧
    processEvents ext cfg fs fuel none store (ev :: rest) =
      .error .unboundLinecolor := by
  have hcol : linecolorAfter cfg
      ((searchsorted ev.cumul (68 / 100) : ℚ) * ev.pixSize) netSNR none =
      none := linecolorAfter_other cfg _ _ none hq1 hq2
  have h : processEvent ext cfg fs fuel none store ev =
      .error .unboundLinecolor := by
    simp only [processEvent, hsnr, hnet, hroll, hcol, hidx, if_true]
  exact ⟨h, by simp only [processEvents, h]⟩

/-- Witness for C10 (amended): a fresh run whose first label is the
bare-color `bareCfg`; its first event dies with the unbound line-color
error and the batch produces nothing. -/
theorem C10_unbound_linecolor_witness :
    (bareCfg.quant ≠ some "error_region".data) ∧
    (bareCfg.quant ≠ some "snr".data) ∧
    (processEvent smallExt bareCfg smallFS 4 none [] smallEvent =
      .error .unboundLinecolor ∧
    processEvents smallExt bareCfg smallFS 4 none []
      [smallEvent, smallEvent] = .error .unboundLinecolor) :=
  ⟨by simp [bareCfg], by simp [bareCfg],
    C10_unbound_linecolor smallExt bareCfg smallFS 4 [] smallEvent
      [smallEvent] [("Network".data, 12)] 12 [[-15, 15]] [[5, 7]] 0
      (by simp [bareCfg]) (by simp [bareCfg]) rfl rfl
      (smallEvent_roll [] rfl)
      (by norm_num [smallEvent, searchsorted])⟩

/-- After a miss stores an event's triple, a second cache step for the
same event is a hit returning the stored triple. -/
theorem cachedTriple_after_store (store : NpzStore) (ev : EventInput)
    (h : store.lookup (cacheFname ev.filename) = none) :
    cachedTriple (cachedStore store ev) ev = ev.interp := by
  simp only [cachedTriple, cachedStore, getOrCompute, h]
  simp [List.lookup]

/-- C10 counterexample: a run processing an `snr`-colored label first and
the bare-color label `bareCfg` (`quant = None`, constant blue colormap)
second completes with no error: the bare label's first event does not fail
with an unbound line-color variable; it silently reuses the previous
label's red line color (its own colormap is never consulted), its contour
is drawn, and its aggregate record is appended.  So the claimed failure
does not hold for every label without `error_region`/`snr`. -/
theorem C10_counterexample :
    runLabels smallExt smallFS 4 none []
      [(snrCfg, [smallEvent]), (bareCfg, [smallEvent])] =
      .ok [[⟨decide ((searchsorted smallEvent.cumul (68 / 100) : ℚ) *
            smallEvent.pixSize > 64),
          ((searchsorted smallEvent.cumul (68 / 100) : ℚ) *
            smallEvent.pixSize, 12,
            smallExt.antennaPt (gmstOf smallEvent)
              (raMaxOf smallExt [[-15, 15]]
                (cachedTriple [] smallEvent).dec [[5, 7]])
              (decMaxOf smallExt [[-15, 15]]
                (cachedTriple [] smallEvent).dec [[5, 7]])), "red".data⟩],
        [⟨decide ((searchsorted smallEvent.cumul (68 / 100) : ℚ) *
            smallEvent.pixSize > 64),
          ((searchsorted smallEvent.cumul (68 / 100) : ℚ) *
            smallEvent.pixSize, 12,
            smallExt.antennaPt (gmstOf smallEvent)
              (raMaxOf smallExt [[-15, 15]]
                (cachedTriple (cachedStore [] smallEvent) smallEvent).dec
                [[5, 7]])
              (decMaxOf smallExt [[-15, 15]]
                (cachedTriple (cachedStore [] smallEvent) smallEvent).dec
                [[5, 7]])), "red".data⟩]] := by
  have h1 := processEvent_ok smallExt snrCfg smallFS 4 none [] smallEvent
    [("Network".data, 12)] 12 [[-15, 15]] [[5, 7]] 0 "red".data
    rfl rfl (smallEvent_roll [] rfl)
    (by norm_num [smallEvent, searchsorted]) rfl
  have h2 := processEvent_ok smallExt bareCfg smallFS 4 (some "red".data)
    (cachedStore [] smallEvent) smallEvent
    [("Network".data, 12)] 12 [[-15, 15]] [[5, 7]] 0 "red".data
    rfl rfl (smallEvent_roll (cachedStore [] smallEvent)
      (cachedTriple_after_store [] smallEvent rfl))
    (by norm_num [smallEvent, searchsorted]) rfl
  simp only [runLabels, processEvents, h1, h2]
